import Mathlib

/-!
Verification of the `bullet` terminal launcher (src/main.rs).

The development shallowly embeds the core of the program: the shortcut data
model, the substring matcher (`ShortcutsTrait::find` on `Vec<Shortcut>`),
the prefix-path resolution (`Shortcut::get_prefixed_path` together with the
`Display` implementation of `ShortcutPathPrefix`), and the per-key-event
step `App::find_and_handle_matches`.

External collaborators (platform directory lookup, the OS launch primitive)
are modelled as explicit parameters.  A Rust `unwrap()` on a missing value
(a panic) is modelled as `none` of the surrounding `Option`.
-/

/-- Embeds `enum ShortcutKind` (src/main.rs). -/
inductive ShortcutKind
  | App
  | Dir
  | File
  | Url
deriving DecidableEq

/-- Embeds `enum ShortcutPathPrefix` (src/main.rs). -/
inductive ShortcutPathPrefix
  | documents
  | appdata
deriving DecidableEq

/-- Embeds `struct Shortcut` (src/main.rs). -/
structure Shortcut where
  path : String
  seq : List String
  description : Option String
  kind : ShortcutKind
  path_prefix : Option ShortcutPathPrefix
deriving DecidableEq

/-- Unicode White_Space test, as Rust's `char::is_whitespace` used by
`str::trim`. -/
def rustIsWhitespace (c : Char) : Bool :=
  c == '\u0009' || c == '\u000a' || c == '\u000b' || c == '\u000c' ||
  c == '\u000d' || c == ' ' || c == '\u0085' || c == '\u00a0' ||
  c == '\u1680' || ('\u2000' ≤ c && c ≤ '\u200a') ||
  c == '\u2028' || c == '\u2029' || c == '\u202f' || c == '\u205f' ||
  c == '\u3000'

/-- Embeds `search.trim().is_empty()`: a string trims to the empty string
exactly when every character is whitespace. -/
def rustTrimEmpty (s : String) : Bool :=
  s.toList.all rustIsWhitespace

/-- `charsLeadMatch needle hay` is true when `needle` occurs at the front
of `hay` (helper for Rust `str::contains`). -/
def charsLeadMatch : List Char → List Char → Bool
  | [], _ => true
  | _ :: _, [] => false
  | a :: as, b :: bs => a == b && charsLeadMatch as bs

/-- `charsContain needle hay` embeds Rust `hay.contains(needle)`: literal
contiguous substring containment, case-sensitive. -/
def charsContain (needle : List Char) : List Char → Bool
  | [] => charsLeadMatch needle []
  | c :: t => charsLeadMatch needle (c :: t) || charsContain needle t

/-- Embeds `ShortcutsTrait::find` for `Vec<Shortcut>` (src/main.rs lines
89-100): whitespace-only queries return the corpus unchanged; otherwise the
corpus is filtered to shortcuts with an alias containing the query. -/
def findShortcuts (shortcuts : List Shortcut) (search : String) : List Shortcut :=
  if rustTrimEmpty search then shortcuts
  else shortcuts.filter (fun s => s.seq.any (fun a => charsContain search.toList a.toList))

/-- The platform the process runs on; it fixes the path separator used by
`Path::join`. -/
inductive Platform
  | unix
  | windows
deriving DecidableEq

/-- The platform's `MAIN_SEPARATOR`. -/
def Platform.mainSep : Platform → Char
  | Platform.unix => '/'
  | Platform.windows => '\\'

/-- Whether `c` is a path separator on `pl` (Windows accepts both). -/
def Platform.isSep (pl : Platform) (c : Char) : Bool :=
  match pl with
  | Platform.unix => c == '/'
  | Platform.windows => c == '/' || c == '\\'

/-- The platform directories the `directories` crate reports: `none` models
an undeterminable base directory (`UserDirs::new()` or `document_dir()`
returning `None`, or `BaseDirs::new()` returning `None`). -/
structure Env where
  documents_dir : Option String
  config_dir : Option String
deriving DecidableEq

/-- Embeds `.replace("\\", "/")` on a path string. -/
def normalizeSeparators (s : String) : String :=
  String.mk (s.toList.map (fun c => if c == '\\' then '/' else c))

/-- Does the path start with a separator (our model of a rooted path)? -/
def pathStartsWithSep (pl : Platform) (p : String) : Bool :=
  match p.toList with
  | [] => false
  | c :: _ => Platform.isSep pl c

/-- Does the path end with a separator? -/
def pathEndsWithSep (pl : Platform) (p : String) : Bool :=
  match p.toList.getLast? with
  | none => false
  | some c => Platform.isSep pl c

/-- Embeds `Path::new(base).join(seg)` for the paths the program builds:
a rooted `seg` replaces `base`; otherwise `seg` is appended, inserting the
platform's main separator unless `base` is empty or already ends with a
separator.  (Windows drive-prefix replacement is outside the model; the
program only joins relative shortcut paths onto absolute base dirs.) -/
def pathJoin (pl : Platform) (base seg : String) : String :=
  if pathStartsWithSep pl seg then seg
  else if base == "" then seg
  else if pathEndsWithSep pl base then base ++ seg
  else base ++ (Platform.mainSep pl).toString ++ seg

/-- Embeds `impl Display for ShortcutPathPrefix` (src/main.rs lines 65-78):
the chosen base directory with backslashes normalized to forward slashes.
`none` models the `unwrap()` panic when the directory is undeterminable. -/
def ShortcutPathPrefix.toString (env : Env) : ShortcutPathPrefix → Option String
  | ShortcutPathPrefix.documents => (env.documents_dir).map normalizeSeparators
  | ShortcutPathPrefix.appdata => (env.config_dir).map normalizeSeparators

/-- Embeds `Shortcut::get_prefixed_path` (src/main.rs lines 54-63): the
prefixed path when ` path_prefix` is present, just `path` otherwise.
`none` models the panic propagated from the prefix `Display`. -/
def Shortcut.get_prefixed_path (pl : Platform) (env : Env) (s : Shortcut) : Option String :=
  match Shortcut.path_prefix s with
  | none => some s.path
  | some pre => (ShortcutPathPrefix.toString env pre).map (fun b => pathJoin pl b s.path)

/-- Embeds `enum LoadConfigError` (src/main.rs). -/
inductive LoadConfigError
  | IoError (msg : String)
  | ParseError (msg : String)
  | NoConfig
deriving DecidableEq

/-- Embeds `struct Config` (src/main.rs). -/
structure Config where
  shortcuts : List Shortcut
deriving DecidableEq

/-- Embeds `struct App` (src/main.rs): the session state. -/
structure App where
  config : Except LoadConfigError Config
  matched_shortcuts : List Shortcut
  running : Bool

/-- Embeds the resolution block inside `App::find_and_handle_matches`
(src/main.rs lines 147-156): a sole remaining candidate resolves
unconditionally; otherwise the first candidate with an alias exactly equal
to the query resolves. -/
def resolve (ms : List Shortcut) (search : String) : Option Shortcut :=
  if ms.length == 1 then ms.head?
  else ms.find? (fun s => s.seq.any (fun a => a == search))

/-- Embeds `App::new` (src/main.rs lines 115-126), with the outcome of
`App::load_config` (file I/O, external) passed as a parameter. -/
def App.new (load : Except LoadConfigError Config) : App :=
  let app : App := { running := true, config := load, matched_shortcuts := [] }
  match load with
  | Except.ok cfg => { app with matched_shortcuts := cfg.shortcuts }
  | Except.error _ => app

/-- Embeds `App::find_and_handle_matches` (src/main.rs lines 143-166), the
step taken on every text-edit event.  `launch` is the external launch
primitive `open::that_detached` (true = success); the result `none` models
a panic inside `get_prefixed_path`. -/
def App.find_and_handle_matches (pl : Platform) (env : Env)
    (launch : String → Bool) (app : App) (search : String) : Option App :=
  let ms : List Shortcut :=
    match app.config with
    | Except.ok cfg => findShortcuts cfg.shortcuts search
    | Except.error _ => app.matched_shortcuts
  match resolve ms search with
  | none => some { app with matched_shortcuts := ms }
  | some sc =>
    match Shortcut.get_prefixed_path pl env sc with
    | none => none
    | some p =>
      if launch p then some { app with matched_shortcuts := ms, running := false }
      else some { app with matched_shortcuts := ms }

/-! Concrete fixtures used by witnesses and counterexamples. -/

/-- A shortcut with the single alias `x`. -/
def scX : Shortcut :=
  { path := "p1", seq := ["x"], description := none, kind := ShortcutKind.App,
    path_prefix := none }

/-- A shortcut with the single alias `git`. -/
def scGit : Shortcut :=
  { path := "gitapp", seq := ["git"], description := none, kind := ShortcutKind.App,
    path_prefix := none }

/-- A shortcut with the single alias `github`. -/
def scGithub : Shortcut :=
  { path := "ghapp", seq := ["github"], description := none, kind := ShortcutKind.App,
    path_prefix := none }

/-- A shortcut with an empty alias list. -/
def scEmpty : Shortcut :=
  { path := "p0", seq := [], description := none, kind := ShortcutKind.App,
    path_prefix := none }

/-- A documents-prefixed directory shortcut with path `notes`. -/
def scNotes : Shortcut :=
  { path := "notes", seq := ["n"], description := none, kind := ShortcutKind.Dir,
    path_prefix := some ShortcutPathPrefix.documents }

/-- An environment with no determinable base directories. -/
def envNone : Env := { documents_dir := none, config_dir := none }

/-- A Windows-like environment with a documents directory. -/
def envWin : Env :=
  { documents_dir := some ("C:\\Users\\u\\Documents"), config_dir := none }

/-- A Unix-like environment with a documents directory. -/
def envUnix : Env :=
  { documents_dir := some ("/home/u/Documents"), config_dir := none }

/-! Theorems for the claims. -/

/-- C4: if the query is empty or consists only of whitespace, the matcher
returns the corpus itself unchanged, in the original order. -/
theorem c4_whitespace_identity (C : List Shortcut) (q : String)
    (h : rustTrimEmpty q = true) : findShortcuts C q = C := by
  simp [findShortcuts, h]

/-- Witness for C4 at the empty query on a one-element corpus. -/
theorem c4_witness :
    rustTrimEmpty ("") = true ∧ findShortcuts [scX] ("") = [scX] :=
  ⟨by decide, c4_whitespace_identity [scX] ("") (by decide)⟩

/-- C2: a filtered list with exactly one entry resolves to that entry,
for every query. -/
theorem c2_single_candidate (ms : List Shortcut) (q : String) (sc : Shortcut)
    (h : ms = [sc]) : resolve ms q = some sc := by
  subst h
  simp [resolve]

/-- Witness for C2: the sole candidate resolves even though the query is
not one of its aliases. -/
theorem c2_witness : resolve [scX] ("bro") = some scX :=
  c2_single_candidate [scX] ("bro") scX rfl

/-! Helper lemmas shared by several claims. -/

/-- A successful `List.find?` splits the list at the first satisfying
element. -/
theorem find?_split {α : Type} (p : α → Bool) (l : List α) (a : α)
    (h : l.find? p = some a) :
    ∃ l1 l2, l = l1 ++ a :: l2 ∧ p a = true ∧ ∀ b ∈ l1, p b = false := by
  induction l with
  | nil => simp at h
  | cons x xs ih =>
    by_cases hx : p x = true
    · rw [List.find?_cons_of_pos _ hx] at h
      obtain rfl : x = a := by injection h
      exact ⟨[], xs, rfl, hx, by simp⟩
    · rw [List.find?_cons_of_neg _ hx] at h
      obtain ⟨l1, l2, hsplit, hpa, hl1⟩ := ih h
      refine ⟨x :: l1, l2, by rw [hsplit, List.cons_append], hpa, ?_⟩
      intro b hb
      rcases List.mem_cons.mp hb with rfl | hb
      · simpa using hx
      · exact hl1 b hb

/-- The exact-alias test of the resolver holds exactly when the query is
one of the aliases. -/
theorem any_beq_iff_mem (l : List String) (q : String) :
    (l.any (fun a => a == q) = true) ↔ q ∈ l := by
  simp [List.any_eq_true]

set_option maxRecDepth 4000 in
/-- C1 fails as stated: for the whitespace query and a corpus whose only
entry has the sole alias `x`, the matcher returns the entry although no
alias contains the query. -/
theorem c1_counterexample :
    ¬ (∀ s ∈ findShortcuts [scX] (" "), ∃ a ∈ s.seq,
        charsContain ((" ").toList) a.toList = true) := by
  decide

/-- C1 (amended): for every query whose trimmed form is nonempty, an entry
is in the matcher's result iff it is in the corpus and some alias contains
the query as a literal contiguous substring. -/
theorem c1_amended_membership (C : List Shortcut) (q : String) (s : Shortcut)
    (h : rustTrimEmpty q = false) :
    s ∈ findShortcuts C q ↔
      s ∈ C ∧ ∃ a ∈ s.seq, charsContain q.toList a.toList = true := by
  simp [findShortcuts, h, List.mem_filter, List.any_eq_true]

/-- Witness for the amended C1 at a concrete corpus and query. -/
theorem c1_amended_witness :
    rustTrimEmpty ("git") = false ∧
      (scGit ∈ findShortcuts [scGit, scGithub] ("git") ↔
        scGit ∈ [scGit, scGithub] ∧
          ∃ a ∈ scGit.seq, charsContain (("git").toList) a.toList = true) :=
  ⟨by decide, c1_amended_membership [scGit, scGithub] ("git") scGit (by decide)⟩

/-- Converse helper: a list that splits at the first satisfying element
makes `List.find?` return that element. -/
theorem find?_of_split {α : Type} (p : α → Bool) (l1 l2 : List α) (a : α)
    (hpa : p a = true) (hl1 : ∀ b ∈ l1, p b = false) :
    (l1 ++ a :: l2).find? p = some a := by
  induction l1 with
  | nil => simpa using List.find?_cons_of_pos l2 hpa
  | cons x xs ih =>
    have hx : p x = false := hl1 x (List.mem_cons_self x xs)
    rw [List.cons_append, List.find?_cons_of_neg _ (by simp [hx])]
    exact ih (fun b hb => hl1 b (List.mem_cons_of_mem x hb))

/-- C3: with a filtered list of length other than one, the resolution is
`some sc` exactly when `sc` is the first entry with an alias exactly equal
to the query, and there is no resolution exactly when no entry has such an
alias. -/
theorem c3_multi_exact_alias (ms : List Shortcut) (q : String)
    (h : ms.length ≠ 1) :
    (∀ sc, resolve ms q = some sc ↔
        ∃ l1 l2, ms = l1 ++ sc :: l2 ∧ q ∈ sc.seq ∧ ∀ t ∈ l1, q ∉ t.seq)
      ∧ (resolve ms q = none ↔ ∀ t ∈ ms, q ∉ t.seq) := by
  have hres : resolve ms q = ms.find? (fun s => s.seq.any (fun a => a == q)) := by
    unfold resolve
    rw [if_neg (by simp [h])]
  constructor
  · intro sc
    rw [hres]
    constructor
    · intro hsc
      obtain ⟨l1, l2, hsplit, hpa, hl1⟩ := find?_split _ _ _ hsc
      refine ⟨l1, l2, hsplit, (any_beq_iff_mem _ _).mp hpa, ?_⟩
      intro t ht hmem
      have hfalse := hl1 t ht
      have htrue := (any_beq_iff_mem t.seq q).mpr hmem
      rw [hfalse] at htrue
      exact Bool.false_ne_true htrue
    · rintro ⟨l1, l2, rfl, hmem, hl1⟩
      refine find?_of_split _ l1 l2 sc ((any_beq_iff_mem _ _).mpr hmem) ?_
      intro b hb
      cases hpb : b.seq.any (fun a => a == q)
      · rfl
      · exact absurd ((any_beq_iff_mem _ _).mp hpb) (hl1 b hb)
  · rw [hres, List.find?_eq_none]
    constructor
    · intro hnone t ht hmem
      exact hnone t ht ((any_beq_iff_mem _ _).mpr hmem)
    · intro hall x hx hpx
      exact hall x hx ((any_beq_iff_mem _ _).mp hpx)

/-- Witness for C3 on a two-element filtered list: the query `git`
resolves to the `git` entry, not the `github` one, obtained from the
positive direction of the characterization. -/
theorem c3_witness :
    [scGit, scGithub].length ≠ 1 ∧
      resolve [scGit, scGithub] ("git") = some scGit :=
  ⟨by decide,
    ((c3_multi_exact_alias [scGit, scGithub] ("git") (by decide)).1 scGit).mpr
      ⟨[], [scGithub], rfl, by decide, by decide⟩⟩

/-- C9 fails as stated: a shortcut with an empty alias list appears in the
matcher's result for the empty query, because the whole corpus is
returned. -/
theorem c9_counterexample :
    scEmpty.seq = [] ∧ scEmpty ∈ findShortcuts [scEmpty] ("") := by
  decide

/-- C9 (amended): the matcher is total and, for every query whose trimmed
form is nonempty, a shortcut with an empty alias list never appears in the
result. -/
theorem c9_amended_never_matches (C : List Shortcut) (q : String) (s : Shortcut)
    (hq : rustTrimEmpty q = false) (hs : s.seq = []) :
    s ∉ findShortcuts C q := by
  simp [findShortcuts, hq, List.mem_filter, hs]

/-- Witness for the amended C9. -/
theorem c9_amended_witness :
    rustTrimEmpty ("x") = false ∧ scEmpty.seq = [] ∧
      scEmpty ∉ findShortcuts [scEmpty] ("x") :=
  ⟨by decide, rfl, c9_amended_never_matches [scEmpty] ("x") scEmpty (by decide) rfl⟩

/-- A session whose loaded config holds only the documents-prefixed
shortcut `scNotes`. -/
def appDoc : App :=
  App.new (Except.ok { shortcuts := [scNotes] })

/-- C5 fails as stated: with no determinable documents directory, the
text-edit step that resolves the sole documents-prefixed shortcut reaches
the modelled `unwrap` panic (`none`) instead of a crash-free
no-resolution state. -/
theorem c5_counterexample :
    App.find_and_handle_matches Platform.unix envNone (fun _ => true)
        appDoc ("n") = none := by
  rfl

/-- C5 (amended): when a shortcut's prefix names a base directory the
platform cannot determine, `get_prefixed_path` panics (modelled `none`)
instead of treating the situation as a crash-free missing resolution. -/
theorem c5_amended_panics (pl : Platform) (env : Env) (s : Shortcut)
    (pre : ShortcutPathPrefix)
    (hp : Shortcut.path_prefix s = some pre)
    (hd : ShortcutPathPrefix.toString env pre = none) :
    Shortcut.get_prefixed_path pl env s = none := by
  simp [Shortcut.get_prefixed_path, hp, hd]

/-- Witness for the amended C5. -/
theorem c5_amended_witness :
    Shortcut.path_prefix scNotes = some ShortcutPathPrefix.documents ∧
      ShortcutPathPrefix.toString envNone ShortcutPathPrefix.documents = none ∧
      Shortcut.get_prefixed_path Platform.unix envNone scNotes = none :=
  ⟨rfl, rfl,
    c5_amended_panics Platform.unix envNone scNotes ShortcutPathPrefix.documents rfl rfl⟩

set_option maxRecDepth 4000 in
/-- C6 fails as stated: on Windows the join inserts a backslash, so the
launch target is not forward-slash normalized. -/
theorem c6_counterexample :
    Shortcut.get_prefixed_path Platform.windows envWin scNotes =
        some ("C:/Users/u/Documents\\notes") ∧
      '\\' ∈ ("C:/Users/u/Documents\\notes").toList ∧
      ("C:/Users/u/Documents\\notes") ≠ ("C:/Users/u/Documents/notes") :=
  ⟨rfl, by decide, by decide⟩

/-- C6 (amended): the launch target is the backslash-normalized base
directory joined to the shortcut's relative path with the platform's main
separator — a forward slash on Unix-likes, a backslash on Windows. -/
theorem c6_amended_join (pl : Platform) (env : Env) (s : Shortcut)
    (pre : ShortcutPathPrefix) (base : String)
    (hp : Shortcut.path_prefix s = some pre)
    (hb : ShortcutPathPrefix.toString env pre = some base)
    (hrel : pathStartsWithSep pl s.path = false)
    (hne : base ≠ "")
    (hend : pathEndsWithSep pl base = false) :
    Shortcut.get_prefixed_path pl env s =
      some (base ++ (Platform.mainSep pl).toString ++ s.path) := by
  simp [Shortcut.get_prefixed_path, hp, hb, pathJoin, hrel, hend, hne]

/-- Witness for the amended C6 on a Unix-like platform. -/
theorem c6_amended_witness :
    Shortcut.path_prefix scNotes = some ShortcutPathPrefix.documents ∧
      ShortcutPathPrefix.toString envUnix ShortcutPathPrefix.documents =
        some ("/home/u/Documents") ∧
      Shortcut.get_prefixed_path Platform.unix envUnix scNotes =
        some (("/home/u/Documents") ++ (Platform.mainSep Platform.unix).toString
          ++ scNotes.path) :=
  ⟨rfl, rfl,
    c6_amended_join Platform.unix envUnix scNotes ShortcutPathPrefix.documents
      ("/home/u/Documents") rfl rfl rfl (by decide) rfl⟩

/-- Shared helper: the matcher is the identity on whitespace-only
queries. -/
theorem findShortcuts_of_trim_empty (C : List Shortcut) (q : String)
    (h : rustTrimEmpty q = true) : findShortcuts C q = C := by
  simp [findShortcuts, h]

/-- Shared helper: a singleton filtered list resolves to its element. -/
theorem resolve_singleton (sc : Shortcut) (q : String) :
    resolve [sc] q = some sc := by
  simp [resolve]

/-- The two-shortcut configuration used by the C7 witness. -/
def cfgGits : Config := { shortcuts := [scGit, scGithub] }

/-- The session started on `cfgGits`. -/
def appGits : App := App.new (Except.ok cfgGits)

/-- C7: in a session with a loaded configuration, when the resolver yields
a shortcut whose path resolves, the text-edit step terminates the session
exactly when the launch primitive succeeds, and on launch failure the
session keeps running with the freshly filtered subset. -/
theorem c7_launch_outcome (pl : Platform) (env : Env) (launch : String → Bool)
    (app : App) (cfg : Config) (q : String) (sc : Shortcut) (p : String)
    (hc : app.config = Except.ok cfg) (hr : app.running = true)
    (hres : resolve (findShortcuts cfg.shortcuts q) q = some sc)
    (hp : Shortcut.get_prefixed_path pl env sc = some p) :
    App.find_and_handle_matches pl env launch app q =
      some { config := app.config,
             matched_shortcuts := findShortcuts cfg.shortcuts q,
             running := !(launch p) } := by
  cases hl : launch p
  · simp [App.find_and_handle_matches, hc, hres, hp, hl, hr]
  · simp [App.find_and_handle_matches, hc, hres, hp, hl]

/-- Witness for C7: a successful launch of the exact match `git`
terminates the session. -/
theorem c7_witness :
    appGits.config = Except.ok cfgGits ∧ appGits.running = true ∧
      resolve (findShortcuts cfgGits.shortcuts ("git")) ("git") = some scGit ∧
      Shortcut.get_prefixed_path Platform.unix envNone scGit = some ("gitapp") ∧
      App.find_and_handle_matches Platform.unix envNone (fun _ => true)
          appGits ("git") =
        some { config := appGits.config,
               matched_shortcuts := findShortcuts cfgGits.shortcuts ("git"),
               running := false } :=
  ⟨rfl, rfl, by decide, rfl,
    c7_launch_outcome Platform.unix envNone (fun _ => true) appGits cfgGits
      ("git") scGit ("gitapp") rfl rfl (by decide) rfl⟩

/-- C8: a session that failed to load its configuration ignores every
text-edit event — the step returns the state unchanged (empty filtered
subset, still running), for every platform, environment, launch primitive,
error kind and query. -/
theorem c8_loading_failed_inert (pl : Platform) (env : Env)
    (launch : String → Bool) (e : LoadConfigError) (q : String) :
    App.find_and_handle_matches pl env launch (App.new (Except.error e)) q =
      some (App.new (Except.error e)) := by
  rfl

/-- The one-shortcut configuration used by the C10 witness. -/
def cfgSolo : Config := { shortcuts := [scGit] }

/-- The session started on `cfgSolo`. -/
def appSolo : App := App.new (Except.ok cfgSolo)

/-- C10: with a loaded one-shortcut configuration, a text-edit event whose
query is empty or whitespace-only resolves the sole shortcut (the matcher
returns the full one-element corpus, and the single-candidate rule fires
regardless of the query) and attempts its launch: the session terminates
exactly when the launch primitive succeeds on the resolved path. -/
theorem c10_whitespace_single_launch (pl : Platform) (env : Env)
    (launch : String → Bool) (app : App) (cfg : Config) (sc : Shortcut)
    (q p : String)
    (hc : app.config = Except.ok cfg) (hone : cfg.shortcuts = [sc])
    (hws : rustTrimEmpty q = true) (hr : app.running = true)
    (hp : Shortcut.get_prefixed_path pl env sc = some p) :
    App.find_and_handle_matches pl env launch app q =
      some { config := app.config, matched_shortcuts := [sc],
             running := !(launch p) } := by
  have hfind : findShortcuts cfg.shortcuts q = [sc] := by
    rw [findShortcuts_of_trim_empty _ _ hws, hone]
  cases hl : launch p
  · simp [App.find_and_handle_matches, hc, hfind, resolve_singleton, hp, hl, hr]
  · simp [App.find_and_handle_matches, hc, hfind, resolve_singleton, hp, hl]

/-- Witness for C10: a single space resolves and launches the sole
shortcut although the space is not a substring of its alias. -/
theorem c10_witness :
    appSolo.config = Except.ok cfgSolo ∧ cfgSolo.shortcuts = [scGit] ∧
      rustTrimEmpty (" ") = true ∧ appSolo.running = true ∧
      Shortcut.get_prefixed_path Platform.unix envNone scGit = some ("gitapp") ∧
      charsContain ((" ").toList) (("git").toList) = false ∧
      App.find_and_handle_matches Platform.unix envNone (fun _ => true)
          appSolo (" ") =
        some { config := appSolo.config, matched_shortcuts := [scGit],
               running := false } :=
  ⟨rfl, rfl, by decide, rfl, rfl, by decide,
    c10_whitespace_single_launch Platform.unix envNone (fun _ => true) appSolo
      cfgSolo scGit (" ") ("gitapp") rfl rfl (by decide) rfl rfl⟩
